import Mathlib

/-!
Shallow embedding of the decision-tree engine of this repository
(`src/3/decision_tree.py`, helper `accuracy` from `src/2/common.py`).

Class labels and attribute values are natural numbers (`np.bincount` requires
non-negative integers; §6 of the spec requires hashable, orderable values).
Error rates and accuracies — ratios of small integers that Python computes in
floating point — are modelled as exact rationals; entropies, which involve
`log2`, are modelled as real numbers.  A dataset is a list of rows, column 0
being the output class.
-/

set_option maxHeartbeats 1000000

namespace DecTree

/-- A dataset: rows of naturals; `row[0]` is the class label. -/
abbrev Dataset := List (List Nat)

/-- `np.bincount`: slot `i` counts occurrences of value `i`; the result has
`max value + 1` slots (and is empty for empty input). -/
def bincount (l : List Nat) : List Nat :=
  match l with
  | [] => []
  | _ => (List.range (l.foldr Nat.max 0 + 1)).map (fun i => l.count i)

/-- `np.argmax`: index of the first maximal entry; `none` on an empty array
(numpy raises `ValueError` there, which is how an empty dataset fails). -/
def argmaxGo : List Nat → Nat → Nat → Nat → Nat
  | [], _, bi, _ => bi
  | x :: xs, i, bi, bv => if bv < x then argmaxGo xs (i + 1) i x else argmaxGo xs (i + 1) bi bv

/-- See `argmaxGo`. -/
def argmax? : List Nat → Option Nat
  | [] => none
  | x :: xs => some (argmaxGo xs 1 0 x)

/-- Python `min` over a nonempty list; junk value 0 on the empty list (a real
node's histogram is never empty). -/
def listMin : List Nat → Nat
  | [] => 0
  | x :: xs => xs.foldl Nat.min x

/-- Maximum entry of a list (0 on the empty list). -/
def listMax (l : List Nat) : Nat := l.foldr Nat.max 0

/-- `Node` from `decision_tree.py`: `nsamples` is the class histogram
(`np.bincount` of the labels reaching the node), `cls = nsamples.argmax()`,
`attr_idx` is `none` on leaves, and `children` is the dict from attribute
value to child node, in Python-dict insertion order (ascending value, from
`np.unique`).  The Python `parent` back-reference is represented by the tree
structure itself: it is read only by `_remove_node`, which `prune` never
calls. -/
inductive DNode : Type where
  | mk : List Nat → Nat → Option Nat → List (Nat × DNode) → DNode

/-- The `nsamples` field. -/
def DNode.nsamples : DNode → List Nat
  | .mk ns _ _ _ => ns

/-- The `cls` field (majority class). -/
def DNode.cls : DNode → Nat
  | .mk _ c _ _ => c

/-- The `attr_idx` field. -/
def DNode.attrIdx : DNode → Option Nat
  | .mk _ _ ai _ => ai

/-- The `children` field. -/
def DNode.children : DNode → List (Nat × DNode)
  | .mk _ _ _ cs => cs

/-- `dict.get` on the children mapping. -/
def lookupChild : List (Nat × DNode) → Nat → Option DNode
  | [], _ => none
  | (v, ch) :: rest, k => if v = k then some ch else lookupChild rest k

mutual

/-- `DecisionTree._predict`: at a leaf return `cls`; otherwise look the
example's value of the split attribute up in `children` and descend, falling
back to this node's `cls` when there is no outgoing edge.  The dict lookup and
the recursive descent are fused into `predictIn` (structural recursion);
`predictIn_eq_lookup` below recovers the lookup-then-descend shape of the
Python code. -/
def predictNode : DNode → List Nat → Nat
  | DNode.mk _ c _ [], _ => c
  | DNode.mk _ c ai (p :: cs), x => predictIn c (p :: cs) (x.getD (ai.getD 0) 0) x

/-- Helper of `predictNode`: scan the children mapping for the key. -/
def predictIn : Nat → List (Nat × DNode) → Nat → List Nat → Nat
  | c, [], _, _ => c
  | c, (v, ch) :: rest, k, x => if v = k then predictNode ch x else predictIn c rest k x

end

/-- `accuracy` from `common.py` on equal-length label lists: the fraction of
positions where actual and predicted agree. -/
def accuracy (actual predicted : List Nat) : ℚ :=
  (((actual.zip predicted).countP (fun p => p.1 == p.2) : ℚ)) / (actual.length : ℚ)

/-- `DecisionTree.score`: predict every row and compare with column 0. -/
def score (t : DNode) (data : Dataset) : ℚ :=
  accuracy (data.map (fun r => r.getD 0 0)) (data.map (fun x => predictNode t x))

mutual

/-- `DecisionTree._node_count`: 1 for a leaf, else 1 + sum over children. -/
def nodeCountN : DNode → Nat
  | DNode.mk _ _ _ [] => 1
  | DNode.mk _ _ _ (p :: cs) => 1 + nodeCountList (p :: cs)

/-- Sum of `nodeCountN` over a children mapping. -/
def nodeCountList : List (Nat × DNode) → Nat
  | [] => 0
  | (_, ch) :: rest => nodeCountN ch + nodeCountList rest

end

mutual

/-- All nodes of the tree in preorder (the reference node multiset used to
state that the BFS traversal visits every node exactly once). -/
def allNodes : DNode → List DNode
  | DNode.mk ns c ai cs => DNode.mk ns c ai cs :: allNodesList cs

/-- Concatenation of `allNodes` over a children mapping. -/
def allNodesList : List (Nat × DNode) → List DNode
  | [] => []
  | (_, ch) :: rest => allNodes ch ++ allNodesList rest

end

/-- Total size of the child subtrees is below the node's size (termination
measure for the BFS queue). -/
theorem sizeOfChildrenList_lt (cs : List (Nat × DNode)) :
    (((cs.map Prod.snd).map sizeOf).sum) < sizeOf cs := by
  induction cs with
  | nil => simp
  | cons p rest ih =>
    obtain ⟨v, ch⟩ := p
    simp only [List.map_cons, List.sum_cons]
    simp only [Prod.mk.sizeOf_spec, List.cons.sizeOf_spec]
    omega

/-- `DecisionTree.nodes`: breadth-first traversal, as a function of the
pending queue (`deque`).  A node is emitted, then its children are appended
to the queue. -/
def bfsFrom : List DNode → List DNode
  | [] => []
  | n :: q => n :: bfsFrom (q ++ n.children.map Prod.snd)
termination_by l => (l.map sizeOf).sum
decreasing_by
  simp only [List.map_append, List.sum_append, List.map_cons, List.sum_cons]
  have h := sizeOfChildrenList_lt n.children
  have h2 : sizeOf n.children < sizeOf n := by
    obtain ⟨ns, c, ai, cs⟩ := n
    simp only [DNode.children, DNode.mk.sizeOf_spec]
    omega
  omega

/-- `DecisionTree.nodes` starting from the root. -/
def nodesBFS (t : DNode) : List DNode := bfsFrom [t]

/-- `node_err_rate` as `prune` computes it (`decision_tree.py` line 216):
`min(node.nsamples) / sum(node.nsamples)`. -/
def nodeErrRate (n : DNode) : ℚ :=
  (listMin n.nsamples : ℚ) / (n.nsamples.sum : ℚ)

/-- `children_err_rate` as `prune` computes it (lines 218–221):
`sum(min(child.nsamples) / sum(node.nsamples) for child in children.values())`. -/
def childrenErrRate (n : DNode) : ℚ :=
  (n.children.map (fun p => (listMin p.2.nsamples : ℚ) / (n.nsamples.sum : ℚ))).sum

/-- Spec formula (§4.6): `node_error_rate = (total − max(class_counts)) / total`. -/
def specNodeErrRate (n : DNode) : ℚ :=
  ((n.nsamples.sum - listMax n.nsamples : Nat) : ℚ) / (n.nsamples.sum : ℚ)

/-- Spec formula (§4.6):
`children_error_rate = Σ_child (child_total − max(child.class_counts)) / node_total`. -/
def specChildrenErrRate (n : DNode) : ℚ :=
  (n.children.map (fun p =>
    ((p.2.nsamples.sum - listMax p.2.nsamples : Nat) : ℚ) / (n.nsamples.sum : ℚ))).sum

mutual

/-- `DecisionTree.prune`, recursively.  The Python code lists the nodes in BFS
order and processes them in reverse, clearing `node.children` when
`children_err_rate > node_err_rate`.  The decision at a node reads only
`nsamples` fields (never mutated) and the node's own children mapping (its
strictly deeper descendants are processed earlier, and clearing a child's own
mapping changes neither the child's `nsamples` nor its key in this node's
mapping), so the in-place pass is equivalent to this structural recursion. -/
def pruneNode : DNode → DNode
  | DNode.mk ns c ai cs =>
    if cs.isEmpty then DNode.mk ns c ai cs
    else if nodeErrRate (DNode.mk ns c ai cs) < childrenErrRate (DNode.mk ns c ai cs) then
      DNode.mk ns c ai []
    else DNode.mk ns c ai (pruneChildren cs)

/-- Recurse `pruneNode` over a children mapping, keeping keys. -/
def pruneChildren : List (Nat × DNode) → List (Nat × DNode)
  | [] => []
  | (v, ch) :: rest => (v, pruneNode ch) :: pruneChildren rest

end

mutual

/-- `s` is `t` with the children mappings of some nodes replaced by the empty
mapping: every retained node keeps its `nsamples`, `cls` and `attr_idx`, and a
kept mapping keeps its keys and order. -/
inductive IsPrunedVersion : DNode → DNode → Prop where
  | collapse (ns c ai cs) : IsPrunedVersion (DNode.mk ns c ai []) (DNode.mk ns c ai cs)
  | keep (ns c ai) {cs cs' : List (Nat × DNode)} (h : IsPrunedChildren cs' cs) :
      IsPrunedVersion (DNode.mk ns c ai cs') (DNode.mk ns c ai cs)

/-- Pointwise `IsPrunedVersion` over a children mapping: same keys, same
order, each child a pruned version of the original. -/
inductive IsPrunedChildren : List (Nat × DNode) → List (Nat × DNode) → Prop where
  | nil : IsPrunedChildren [] []
  | cons (v : Nat) {ch ch' : DNode} {rest rest' : List (Nat × DNode)}
      (h1 : IsPrunedVersion ch' ch) (h2 : IsPrunedChildren rest' rest) :
      IsPrunedChildren ((v, ch') :: rest') ((v, ch) :: rest)

end

/-- `entropy(Y)`: `-1 * sum(p * log2(p) for p in np.bincount(Y) / len(Y) if p)`
(skipping a zero probability is the same as adding a zero term). -/
noncomputable def entropy (Y : List Nat) : ℝ :=
  -1 * (((bincount Y).map (fun c => (c : ℝ) / (Y.length : ℝ))).map
      (fun p => if p = 0 then 0 else p * Real.logb 2 p)).sum

/-- The key set of `partition`: `np.unique`, the distinct values in ascending
order. -/
def uniqueSorted (l : List Nat) : List Nat :=
  (List.range (l.foldr Nat.max 0 + 1)).filter (fun v => l.contains v)

/-- Column `a` of the dataset. -/
def column (data : Dataset) (a : Nat) : List Nat := data.map (fun r => r.getD a 0)

/-- The rows of `data` whose column `a` holds `v`: `data[p]` for the index
group `p` of `partition`, in row order. -/
def subData (data : Dataset) (a v : Nat) : Dataset :=
  data.filter (fun r => r.getD a 0 == v)

/-- Number of candidate attribute columns (`X = data[:, 1:]`). -/
def numAttrs (data : Dataset) : Nat := (data.headD []).length - 1

/-- `entropy_Y_Xa`:
`sum((len(p) / len(Xa)) * entropy(Y[p]) for p in partition(Xa).values())`. -/
noncomputable def condEntropy (data : Dataset) (a : Nat) : ℝ :=
  ((uniqueSorted (column data a)).map (fun v =>
    ((subData data a v).length : ℝ) / (data.length : ℝ) *
      entropy (column (subData data a v) 0))).sum

/-- The information gains of the candidate attribute columns `1..k` in column
order: `gain = entropy(Y) - entropy_Y_Xa` for each column of `X.T`. -/
noncomputable def gainsOf (data : Dataset) : List ℝ :=
  (List.range (numAttrs data)).map
    (fun i => entropy (column data 0) - condEntropy data (i + 1))

/-- The selection loop of `_best_attribute` over the gains: the running pair
`(best_gain, best_attr)` is updated at column `i` exactly when
`gain > best_gain` (strict), `best_attr` receiving `i + 1`. -/
noncomputable def selectBest : List ℝ → Nat → ℝ × Int → ℝ × Int
  | [], _, best => best
  | g :: gs, i, best =>
    selectBest gs (i + 1) (if best.1 < g then (g, (i : Int) + 1) else best)

/-- `_best_attribute`: the loop starts from `best_gain = -1`, `best_attr = -1`. -/
noncomputable def bestAttribute (data : Dataset) : ℝ × Int :=
  selectBest (gainsOf data) 0 (-1, -1)

/-- `Node.__init__`: `cls = nsamples.argmax()`, which raises a numpy
`ValueError` when the histogram is empty (no rows reached the node). -/
def mkNode? (ns : List Nat) (ai : Option Nat) (cs : List (Nat × DNode)) : Option DNode :=
  (argmax? ns).map (fun c => DNode.mk ns c ai cs)

mutual

/-- `DecisionTree._build_tree` with explicit fuel.  The Python recursion
terminates because a column chosen with `gain > 0` is non-constant, so every
partition is strictly smaller than `data`; fuel `data.length + 1` therefore
never runs out on reachable inputs, and `buildTree` below supplies it. -/
noncomputable def buildTreeF : Nat → Dataset → Option DNode
  | 0, _ => none
  | fuel + 1, data =>
    if (column data 0).dedup.length ≤ 1 then
      mkNode? (bincount (column data 0)) none []
    else if 0 < (bestAttribute data).1 then
      match buildChildrenF fuel data (bestAttribute data).2.toNat
          (uniqueSorted (column data (bestAttribute data).2.toNat)) with
      | none => none
      | some cs => mkNode? (bincount (column data 0)) (some (bestAttribute data).2.toNat) cs
    else mkNode? (bincount (column data 0)) none []
termination_by fuel _ => (fuel, 0, 0)

/-- The children dict comprehension of `_build_tree`: one recursive build per
partition value, keyed by that value, in `np.unique` order. -/
noncomputable def buildChildrenF : Nat → Dataset → Nat → List Nat → Option (List (Nat × DNode))
  | _, _, _, [] => some []
  | fuel, data, a, v :: vs =>
    match buildTreeF fuel (subData data a v), buildChildrenF fuel data a vs with
    | some t, some rest => some ((v, t) :: rest)
    | _, _ => none
termination_by fuel _ _ vs => (fuel, 1, vs.length)

end

/-- `DecisionTree._build_tree` from the root (`parent = None`). -/
noncomputable def buildTree (data : Dataset) : Option DNode :=
  buildTreeF (data.length + 1) data

/-- `entropy` as invoked on raw integer labels: `np.bincount` raises
`ValueError` on any negative entry, so the call fails there; on non-negative
labels it is `entropy` of those labels. -/
noncomputable def entropyZ? (Y : List Int) : Option ℝ :=
  if Y.all (fun y => decide (0 ≤ y)) then some (entropy (Y.map Int.toNat)) else none


/-! ### Concrete development: the dataset `D0` and its built tree `T0` -/

/-- A four-row training set: three rows of class 0 with attribute value 0 and
one row of class 1 with attribute value 1. -/
def D0 : Dataset := [[0, 0], [0, 0], [0, 0], [1, 1]]

/-- The tree `_build_tree` grows on `D0`: the root splits on column 1, the
value-0 child is a pure class-0 leaf (histogram `[3]`), the value-1 child a
pure class-1 leaf (histogram `[0, 1]`). -/
def T0 : DNode :=
  DNode.mk [3, 1] 0 (some 1) [(0, DNode.mk [3] 0 none []), (1, DNode.mk [0, 1] 1 none [])]

/-- Entropy of a pure label list is zero. -/
theorem entropy_three_zeros : entropy [0, 0, 0] = 0 := by
  rw [entropy, (by decide : bincount [0, 0, 0] = [3])]
  norm_num [Real.logb_one]

/-- Entropy of the single label 1 is zero (its histogram is `[0, 1]`). -/
theorem entropy_single_one : entropy [1] = 0 := by
  rw [entropy, (by decide : bincount [1] = [0, 1])]
  norm_num [Real.logb_one]

/-- Splitting `D0` on its attribute column separates the classes, so the
weighted child entropy is zero. -/
theorem condEntropy_D0 : condEntropy D0 1 = 0 := by
  rw [condEntropy, (by decide : uniqueSorted (column D0 1) = [0, 1])]
  rw [List.map_cons, List.map_cons, List.map_nil]
  rw [(by decide : subData D0 1 0 = [[0, 0], [0, 0], [0, 0]]),
      (by decide : subData D0 1 1 = [[1, 1]])]
  rw [(by decide : column [[0, 0], [0, 0], [0, 0]] 0 = [0, 0, 0]),
      (by decide : column [[1, 1]] 0 = [1])]
  rw [entropy_three_zeros, entropy_single_one]
  norm_num

/-- The label column of `D0` is impure, so its entropy is positive. -/
theorem entropy_D0_pos : 0 < entropy [0, 0, 0, 1] := by
  have h1 : Real.logb 2 ((3 : ℝ) / 4) < 0 :=
    Real.logb_neg (by norm_num) (by norm_num) (by norm_num)
  have h2 : Real.logb 2 ((1 : ℝ) / 4) < 0 :=
    Real.logb_neg (by norm_num) (by norm_num) (by norm_num)
  rw [entropy, (by decide : bincount [0, 0, 0, 1] = [3, 1])]
  norm_num
  nlinarith

/-- The one candidate attribute of `D0` has gain equal to the full label
entropy. -/
theorem gainsOf_D0 : gainsOf D0 = [entropy [0, 0, 0, 1]] := by
  rw [gainsOf, (by decide : numAttrs D0 = 1)]
  rw [(by decide : List.range 1 = [0]), List.map_cons, List.map_nil]
  rw [condEntropy_D0, (by decide : column D0 0 = [0, 0, 0, 1])]
  norm_num

/-- `_best_attribute` on `D0` returns column 1 with that gain. -/
theorem bestAttribute_D0 : bestAttribute D0 = (entropy [0, 0, 0, 1], 1) := by
  have h : (((-1 : ℝ), (-1 : Int)).1 : ℝ) < entropy [0, 0, 0, 1] :=
    lt_trans (by norm_num) entropy_D0_pos
  rw [bestAttribute, gainsOf_D0, selectBest, if_pos h, selectBest]
  norm_num

/-- Building on `D0` produces exactly `T0`. -/
theorem buildTree_D0 : buildTree D0 = some T0 := by
  have hleaf0 : buildTreeF 4 [[0, 0], [0, 0], [0, 0]] = some (DNode.mk [3] 0 none []) := by
    rw [show (4 : Nat) = 3 + 1 from rfl, buildTreeF, if_pos (by decide)]
    rfl
  have hleaf1 : buildTreeF 4 [[1, 1]] = some (DNode.mk [0, 1] 1 none []) := by
    rw [show (4 : Nat) = 3 + 1 from rfl, buildTreeF, if_pos (by decide)]
    rfl
  have htoNat : ((entropy [0, 0, 0, 1], (1 : Int)).2.toNat) = 1 := rfl
  rw [buildTree, (by decide : D0.length + 1 = 4 + 1), buildTreeF]
  rw [if_neg (by decide)]
  rw [bestAttribute_D0, htoNat]
  rw [if_pos (show (0 : ℝ) < (entropy [0, 0, 0, 1], (1 : Int)).1 from entropy_D0_pos)]
  rw [(by decide : uniqueSorted (column D0 1) = [0, 1])]
  rw [buildChildrenF, buildChildrenF, buildChildrenF]
  rw [(by decide : subData D0 1 0 = [[0, 0], [0, 0], [0, 0]]),
      (by decide : subData D0 1 1 = [[1, 1]])]
  rw [hleaf0, hleaf1]
  rfl

/-! ### General lemmas about the embedded operations -/

/-- `predictIn` is the Python lookup-then-descend: find the key in the
children dict; on a hit descend, otherwise fall back. -/
theorem predictIn_eq_lookup (c : Nat) (cs : List (Nat × DNode)) (k : Nat) (x : List Nat) :
    predictIn c cs k x =
      match lookupChild cs k with
      | none => c
      | some ch => predictNode ch x := by
  induction cs with
  | nil => rfl
  | cons p rest ih =>
    obtain ⟨v, ch⟩ := p
    rw [predictIn, lookupChild]
    by_cases h : v = k
    · simp [h]
    · simp [h, ih]

mutual

/-- The preorder listing has exactly `node_count` entries. -/
theorem allNodes_length (t : DNode) : (allNodes t).length = nodeCountN t := by
  cases t with
  | mk ns c ai cs =>
    cases cs with
    | nil => rfl
    | cons p rest =>
      rw [allNodes, nodeCountN, List.length_cons, allNodesList_length (p :: rest)]
      omega

/-- List version of `allNodes_length`. -/
theorem allNodesList_length (cs : List (Nat × DNode)) :
    (allNodesList cs).length = nodeCountList cs := by
  cases cs with
  | nil => rfl
  | cons p rest =>
    obtain ⟨v, ch⟩ := p
    rw [allNodesList, nodeCountList, List.length_append,
      allNodes_length ch, allNodesList_length rest]

end

/-- `allNodesList` is the concatenation of the subtrees' node listings. -/
theorem allNodesList_eq_flatMap (cs : List (Nat × DNode)) :
    allNodesList cs = (cs.map Prod.snd).flatMap allNodes := by
  induction cs with
  | nil => rfl
  | cons p rest ih =>
    obtain ⟨v, ch⟩ := p
    rw [allNodesList, ih]
    simp [List.flatMap_cons]

/-- Unfold `allNodes` on an arbitrary node. -/
theorem allNodes_expand (n : DNode) : allNodes n = n :: allNodesList n.children := by
  cases n
  rfl

/-- The BFS emission from any queue is a permutation of the concatenated node
listings of the queued subtrees: every node surfaces exactly once. -/
theorem bfsFrom_perm (q : List DNode) : (bfsFrom q).Perm (q.flatMap allNodes) := by
  induction q using bfsFrom.induct with
  | case1 =>
    rw [bfsFrom]
    simp
  | case2 n q ih =>
    rw [bfsFrom]
    have h1 : (n :: q).flatMap allNodes = allNodes n ++ q.flatMap allNodes := by
      simp [List.flatMap_cons]
    rw [h1, allNodes_expand, List.cons_append]
    refine List.Perm.cons _ ?_
    refine ih.trans ?_
    rw [List.flatMap_append, ← allNodesList_eq_flatMap]
    exact List.perm_append_comm

mutual

/-- `prune` only ever replaces children mappings by the empty mapping. -/
theorem prune_isPrunedVersion (t : DNode) : IsPrunedVersion (pruneNode t) t := by
  cases t with
  | mk ns c ai cs =>
    rw [pruneNode]
    split_ifs with h1 h2
    · have hnil : cs = [] := by simpa using h1
      subst hnil
      exact .collapse ns c ai []
    · exact .collapse ns c ai cs
    · exact .keep ns c ai (pruneChildren_isPrunedChildren cs)

/-- List version of `prune_isPrunedVersion`. -/
theorem pruneChildren_isPrunedChildren (cs : List (Nat × DNode)) :
    IsPrunedChildren (pruneChildren cs) cs := by
  cases cs with
  | nil => exact .nil
  | cons p rest =>
    obtain ⟨v, ch⟩ := p
    rw [pruneChildren]
    exact .cons v (prune_isPrunedVersion ch) (pruneChildren_isPrunedChildren rest)

end

/-- `prune` keeps a node's histogram. -/
theorem pruneNode_nsamples (t : DNode) : (pruneNode t).nsamples = t.nsamples := by
  cases t
  rw [pruneNode]
  split_ifs <;> rfl

/-- `prune` keeps a node's majority class. -/
theorem pruneNode_cls (t : DNode) : (pruneNode t).cls = t.cls := by
  cases t
  rw [pruneNode]
  split_ifs <;> rfl

/-- `prune` keeps a node's split attribute field. -/
theorem pruneNode_attrIdx (t : DNode) : (pruneNode t).attrIdx = t.attrIdx := by
  cases t
  rw [pruneNode]
  split_ifs <;> rfl

/-- When no gain beats the running best, the loop keeps its accumulator. -/
theorem selectBest_all_le (gs : List ℝ) : ∀ (i : Nat) (b : ℝ × Int),
    (∀ g ∈ gs, g ≤ b.1) → selectBest gs i b = b := by
  induction gs with
  | nil =>
    intro i b _
    rw [selectBest]
  | cons g gs ih =>
    intro i b h
    rw [selectBest, if_neg (not_lt.2 (h g (by simp)))]
    exact ih (i + 1) b (fun g' hg' => h g' (by simp [hg']))

/-- The `_best_attribute` loop with a beatable accumulator lands on the first
entry attaining the maximum of the list: entries before it are strictly
smaller, every entry is at most it, and the reported position is its index
plus one. -/
theorem selectBest_first_max (gs : List ℝ) : ∀ (i : Nat) (bg : ℝ) (ba : Int),
    (∃ g ∈ gs, bg < g) →
    ∃ k : Fin gs.length,
      selectBest gs i (bg, ba) = (gs.get k, ((i + (k : Nat) : Nat) : Int) + 1) ∧
      bg < gs.get k ∧
      (∀ j : Fin gs.length, gs.get j ≤ gs.get k) ∧
      (∀ j : Fin gs.length, (j : Nat) < (k : Nat) → gs.get j < gs.get k) := by
  induction gs with
  | nil =>
    intro i bg ba h
    simp at h
  | cons g gs ih =>
    intro i bg ba h
    by_cases hbg : bg < g
    · rw [selectBest, if_pos (show ((bg, ba) : ℝ × Int).1 < g from hbg)]
      by_cases hex : ∃ g' ∈ gs, g < g'
      · obtain ⟨k, hk1, hk2, hk3, hk4⟩ := ih (i + 1) g ((i : Int) + 1) hex
        refine ⟨k.succ, ?_, lt_trans hbg hk2, ?_, ?_⟩
        · rw [hk1]
          congr 1
          simp only [Fin.val_succ]
          push_cast
          ring
        · intro j
          refine Fin.cases ?_ ?_ j
          · simpa using le_of_lt hk2
          · intro j'
            simpa using hk3 j'
        · intro j
          refine Fin.cases ?_ ?_ j
          · intro _
            simpa using hk2
          · intro j' hj'
            simp only [Fin.val_succ, Nat.succ_lt_succ_iff] at hj' ⊢
            simpa using hk4 j' hj'
      · push_neg at hex
        rw [selectBest_all_le gs (i + 1) (g, (i : Int) + 1) (by simpa using hex)]
        refine ⟨⟨0, by simp⟩, ?_, hbg, ?_, ?_⟩
        · simp
        · intro j
          refine Fin.cases ?_ ?_ j
          · simp
          · intro j'
            simpa using hex (gs.get j') (List.get_mem gs j'.1 j'.2)
        · intro j hj
          simp at hj
    · have hg_le : g ≤ bg := not_lt.1 hbg
      have hex : ∃ g' ∈ gs, bg < g' := by
        obtain ⟨g0, hg0, hlt⟩ := h
        rcases List.mem_cons.1 hg0 with h0 | h0
        · exact absurd (h0 ▸ hlt) hbg
        · exact ⟨g0, h0, hlt⟩
      rw [selectBest, if_neg (show ¬ ((bg, ba) : ℝ × Int).1 < g from hbg)]
      obtain ⟨k, hk1, hk2, hk3, hk4⟩ := ih (i + 1) bg ba hex
      refine ⟨k.succ, ?_, hk2, ?_, ?_⟩
      · rw [hk1]
        congr 1
        simp only [Fin.val_succ]
        push_cast
        ring
      · intro j
        refine Fin.cases ?_ ?_ j
        · simpa using le_trans hg_le (le_of_lt hk2)
        · intro j'
          simpa using hk3 j'
      · intro j
        refine Fin.cases ?_ ?_ j
        · intro _
          simpa using lt_of_le_of_lt hg_le hk2
        · intro j' hj'
          simp only [Fin.val_succ, Nat.succ_lt_succ_iff] at hj' ⊢
          simpa using hk4 j' hj'

/-! ### Further concrete evaluations -/

/-- `prune` collapses the root of `T0`: the code's children error rate
`min([3])/4 + min([0,1])/4 = 3/4` exceeds its node error rate `1/4`. -/
theorem pruneNode_T0 : pruneNode T0 = DNode.mk [3, 1] 0 (some 1) [] := by
  rw [T0, pruneNode]
  norm_num [nodeErrRate, childrenErrRate, listMin, DNode.nsamples, DNode.children]

/-- The unpruned tree classifies its own training set perfectly. -/
theorem score_T0 : score T0 D0 = 1 := by
  norm_num [score, accuracy, predictNode, predictIn, T0, D0]

/-- After pruning, everything is predicted class 0: three of four rows. -/
theorem score_pruned_T0 : score (pruneNode T0) D0 = 3 / 4 := by
  rw [pruneNode_T0]
  norm_num [score, accuracy, predictNode, D0]

/-- The code's and the spec's error rates at the root of `T0`. -/
theorem rates_T0 : nodeErrRate T0 = 1 / 4 ∧ specNodeErrRate T0 = 1 / 4 ∧
    childrenErrRate T0 = 3 / 4 ∧ specChildrenErrRate T0 = 0 := by
  refine ⟨?_, ?_, ?_, ?_⟩ <;>
    norm_num [nodeErrRate, specNodeErrRate, childrenErrRate, specChildrenErrRate,
      listMin, listMax, DNode.nsamples, DNode.children, T0]

/-- The boundary scenario of §8 encoded with class A as label 0 and B as
label 1: node histogram `[8, 2]`, children histograms `[5]` (five A rows:
`np.bincount` allots no slot for B) and `[3, 2]`. -/
def TB : DNode :=
  DNode.mk [8, 2] 0 (some 1) [(0, DNode.mk [5] 0 none []), (1, DNode.mk [3, 2] 0 none [])]

/-- The same scenario with A as label 1 and B as label 0: node histogram
`[2, 8]`, children histograms `[0, 5]` and `[2, 3]`. -/
def TBswap : DNode :=
  DNode.mk [2, 8] 1 (some 1) [(0, DNode.mk [0, 5] 1 none []), (1, DNode.mk [2, 3] 1 none [])]

/-- Under the A-is-0 encoding the node is pruned. -/
theorem prune_TB : pruneNode TB = DNode.mk [8, 2] 0 (some 1) [] := by
  rw [TB, pruneNode]
  norm_num [nodeErrRate, childrenErrRate, listMin, DNode.nsamples, DNode.children]

/-- Under the A-is-1 encoding the rates tie and the node is kept. -/
theorem prune_TBswap : pruneNode TBswap = TBswap := by
  rw [TBswap, pruneNode]
  norm_num [nodeErrRate, childrenErrRate, listMin, DNode.nsamples, DNode.children,
    pruneChildren, pruneNode]

/-- A two-row dataset on which every entropy is zero, so the single candidate
attribute has gain 0. -/
def W4 : Dataset := [[0, 0], [0, 1]]

/-- Entropy of two identical labels is zero. -/
theorem entropy_pair_zeros : entropy [0, 0] = 0 := by
  rw [entropy, (by decide : bincount [0, 0] = [2])]
  norm_num [Real.logb_one]

/-- Entropy of the single label 0 is zero. -/
theorem entropy_single_zero : entropy [0] = 0 := by
  rw [entropy, (by decide : bincount [0] = [1])]
  norm_num [Real.logb_one]

/-- Both partitions of `W4` are pure, so the weighted child entropy is 0. -/
theorem condEntropy_W4 : condEntropy W4 1 = 0 := by
  rw [condEntropy, (by decide : uniqueSorted (column W4 1) = [0, 1])]
  rw [List.map_cons, List.map_cons, List.map_nil]
  rw [(by decide : subData W4 1 0 = [[0, 0]]), (by decide : subData W4 1 1 = [[0, 1]])]
  rw [(by decide : column [[0, 0]] 0 = [0]), (by decide : column [[0, 1]] 0 = [0])]
  rw [entropy_single_zero]
  norm_num

/-- The gain list of `W4` is `[0]`. -/
theorem gainsOf_W4 : gainsOf W4 = [0] := by
  rw [gainsOf, (by decide : numAttrs W4 = 1)]
  rw [(by decide : List.range 1 = [0]), List.map_cons, List.map_nil]
  rw [condEntropy_W4, (by decide : column W4 0 = [0, 0]), entropy_pair_zeros]
  norm_num

/-! ### The claims -/

/-- C1: the claim states that `prune` computes
`node_error_rate = (total - max(class_counts)) / total` and
`children_error_rate = sum over children of (child_total - max(child counts)) / total`,
clearing the children exactly when the latter exceeds the former.  The code
instead uses `min(histogram)`, which differs from `total - max` whenever
`np.bincount` gives a histogram without an explicit zero slot: on the built
tree `T0` the spec formulas give `1/4` and `0` (keep the children), while the
code computes `1/4` and `3/4` and collapses the root. -/
theorem prune_rate_formulas_diverge_on_D0 :
    buildTree D0 = some T0 ∧
    specNodeErrRate T0 = 1 / 4 ∧ specChildrenErrRate T0 = 0 ∧
    nodeErrRate T0 = 1 / 4 ∧ childrenErrRate T0 = 3 / 4 ∧
    ¬ specChildrenErrRate T0 > specNodeErrRate T0 ∧
    pruneNode T0 = DNode.mk [3, 1] 0 (some 1) [] := by
  obtain ⟨h1, h2, h3, h4⟩ := rates_T0
  exact ⟨buildTree_D0, h2, h4, h1, h3, by rw [h4, h2]; norm_num, pruneNode_T0⟩

/-- C2: the claim states that pruning never increases `node_count` and never
decreases training accuracy on the build set.  On `D0` the node count indeed
does not increase, but the training accuracy drops from `1` to `3/4`. -/
theorem prune_drops_training_accuracy_on_D0 :
    buildTree D0 = some T0 ∧ nodeCountN (pruneNode T0) ≤ nodeCountN T0 ∧
    score T0 D0 = 1 ∧ score (pruneNode T0) D0 = 3 / 4 ∧
    score (pruneNode T0) D0 < score T0 D0 := by
  refine ⟨buildTree_D0, ?_, score_T0, score_pruned_T0, ?_⟩
  · rw [pruneNode_T0]
    decide
  · rw [score_T0, score_pruned_T0]
    norm_num

/-- C3: the claim states that on the scenario node `{A:8, B:2}` with children
`{A:5, B:0}` and `{A:3, B:2}` both error rates are `0.2` and the node is kept.
With A encoded as class 0 (tree `TB`), the pure-A child's histogram is `[5]`,
`min` gives 5 rather than 0, the children rate becomes `7/10` and the node is
pruned; only the swapped encoding `TBswap` produces the claimed `0.2 = 0.2`
tie and keeps the node. -/
theorem prune_boundary_scenario_encoding_dependent :
    nodeErrRate TB = 1 / 5 ∧ childrenErrRate TB = 7 / 10 ∧
    pruneNode TB = DNode.mk [8, 2] 0 (some 1) [] ∧
    nodeErrRate TBswap = 1 / 5 ∧ childrenErrRate TBswap = 1 / 5 ∧
    pruneNode TBswap = TBswap := by
  refine ⟨?_, ?_, prune_TB, ?_, ?_, prune_TBswap⟩ <;>
    norm_num [nodeErrRate, childrenErrRate, listMin, DNode.nsamples, DNode.children,
      TB, TBswap]

/-- C4: whenever some candidate gain beats the `-1` the loop starts from
(always true for real information gains), `_best_attribute` returns the gain
of the first column attaining the maximum gain, together with that column's
index (`k + 1` counts from the full table, the label being column 0): every
gain is at most the returned one and every earlier gain is strictly below it,
so ties keep the first attribute in column order. -/
theorem best_attribute_first_strict_max (data : Dataset)
    (h : ∃ g ∈ gainsOf data, (-1 : ℝ) < g) :
    ∃ k : Fin (gainsOf data).length,
      bestAttribute data = ((gainsOf data).get k, ((k : Nat) : Int) + 1) ∧
      (∀ j : Fin (gainsOf data).length, (gainsOf data).get j ≤ (gainsOf data).get k) ∧
      (∀ j : Fin (gainsOf data).length, (j : Nat) < (k : Nat) →
        (gainsOf data).get j < (gainsOf data).get k) := by
  obtain ⟨k, hk1, hk2, hk3, hk4⟩ := selectBest_first_max (gainsOf data) 0 (-1) (-1) h
  refine ⟨k, ?_, hk3, hk4⟩
  rw [bestAttribute, hk1]
  norm_num

/-- Witness for C4 at the concrete dataset `W4`, whose gain list is `[0]`. -/
theorem best_attribute_first_strict_max_witness :
    (∃ g ∈ gainsOf W4, (-1 : ℝ) < g) ∧
    (∃ k : Fin (gainsOf W4).length,
      bestAttribute W4 = ((gainsOf W4).get k, ((k : Nat) : Int) + 1) ∧
      (∀ j : Fin (gainsOf W4).length, (gainsOf W4).get j ≤ (gainsOf W4).get k) ∧
      (∀ j : Fin (gainsOf W4).length, (j : Nat) < (k : Nat) →
        (gainsOf W4).get j < (gainsOf W4).get k)) := by
  have hex : ∃ g ∈ gainsOf W4, (-1 : ℝ) < g := by
    rw [gainsOf_W4]
    exact ⟨0, by simp, by norm_num⟩
  exact ⟨hex, best_attribute_first_strict_max W4 hex⟩

/-- C5: `_predict` returns the majority class at a leaf; at an internal node
it looks the example's value of the split attribute up in the children
mapping, returns this node's majority class when no key matches (the unseen
value fallback, not an error), and descends into the matching child
otherwise. -/
theorem predict_missing_key_returns_majority (ns : List Nat) (c : Nat) (ai : Option Nat)
    (cs : List (Nat × DNode)) (x : List Nat) :
    predictNode (DNode.mk ns c ai []) x = c ∧
    (lookupChild cs (x.getD (ai.getD 0) 0) = none →
      predictNode (DNode.mk ns c ai cs) x = c) ∧
    (∀ ch, lookupChild cs (x.getD (ai.getD 0) 0) = some ch →
      predictNode (DNode.mk ns c ai cs) x = predictNode ch x) := by
  refine ⟨rfl, ?_, ?_⟩
  · intro h
    cases cs with
    | nil => rfl
    | cons p rest =>
      rw [predictNode, predictIn_eq_lookup, h]
  · intro ch h
    cases cs with
    | nil => exact absurd h (by rw [lookupChild]; simp)
    | cons p rest =>
      rw [predictNode, predictIn_eq_lookup, h]

/-- Witness for C5: an internal node splitting on column 1 with a single
child keyed 0; the example carries the unseen value 1 there, so prediction
falls back to the node's majority class 1 (not the child's class 0). -/
theorem predict_missing_key_returns_majority_witness :
    lookupChild [(0, DNode.mk [1] 0 none [])]
      (([0, 1] : List Nat).getD ((some 1 : Option Nat).getD 0) 0) = none ∧
    predictNode (DNode.mk [1, 2] 1 (some 1) [(0, DNode.mk [1] 0 none [])]) [0, 1] = 1 :=
  ⟨rfl,
    (predict_missing_key_returns_majority [1, 2] 1 (some 1)
      [(0, DNode.mk [1] 0 none [])] [0, 1]).2.1 rfl⟩

/-- C6: the BFS traversal of `nodes` starts at the root and yields every node
of the tree exactly once (it is a permutation of the preorder node listing),
and `node_count` equals the number of yielded elements — including the
degenerate single-leaf tree, where both are 1. -/
theorem nodes_bfs_every_node_once_and_count (t : DNode) :
    (nodesBFS t).Perm (allNodes t) ∧ (nodesBFS t).head? = some t ∧
    (nodesBFS t).length = nodeCountN t := by
  have hp : (nodesBFS t).Perm (allNodes t) := by
    have h := bfsFrom_perm [t]
    simpa [nodesBFS] using h
  refine ⟨hp, ?_, hp.length_eq.trans (allNodes_length t)⟩
  rw [nodesBFS, bfsFrom]
  rfl

/-- C7: `prune` mutates only children mappings: every retained node keeps its
`nsamples` histogram (hence its row total), its majority class and its split
attribute, and the result differs from the input tree only by some children
mappings being replaced by the empty mapping (keys and order of kept mappings
unchanged, so parent links are preserved too). -/
theorem prune_only_clears_children_mappings (t : DNode) :
    (pruneNode t).nsamples = t.nsamples ∧ (pruneNode t).cls = t.cls ∧
    (pruneNode t).attrIdx = t.attrIdx ∧ IsPrunedVersion (pruneNode t) t :=
  ⟨pruneNode_nsamples t, pruneNode_cls t, pruneNode_attrIdx t, prune_isPrunedVersion t⟩

/-- C8: building from an empty dataset fails (numpy `argmax` of the empty
histogram raises `ValueError`) instead of returning a degenerate node. -/
theorem build_empty_dataset_fails : buildTree ([] : Dataset) = none := by
  rw [buildTree, show ([] : Dataset).length + 1 = 0 + 1 from rfl, buildTreeF,
    if_pos (by decide)]
  rfl

/-- C9: labels live in the non-negative integers: `np.bincount` (hence
`entropy` and the histograms `build` stores in nodes) rejects negative
labels, and a histogram has one slot per integer from 0 up to the largest
observed label, counting occurrences — zero for absent intermediate
labels. -/
theorem labels_nonneg_histogram_shape :
    (∀ Y : List Int, (∃ y ∈ Y, y < 0) → entropyZ? Y = none) ∧
    (∀ Y : List Nat, Y ≠ [] →
      (bincount Y).length = listMax Y + 1 ∧
      ∀ i : Nat, i < (bincount Y).length → (bincount Y).getD i 0 = Y.count i) := by
  constructor
  · rintro Y ⟨y, hy, hneg⟩
    rw [entropyZ?, if_neg]
    intro hall
    rw [List.all_eq_true] at hall
    have h0 := hall y hy
    simp only [decide_eq_true_eq] at h0
    omega
  · intro Y hY
    match Y, hY with
    | a :: l, _ =>
      have hb : bincount (a :: l) =
          (List.range ((a :: l).foldr Nat.max 0 + 1)).map (fun i => (a :: l).count i) := rfl
      constructor
      · rw [hb]
        simp [listMax]
      · intro i hi
        rw [hb] at hi ⊢
        rw [List.getD_eq_getElem _ _ (by simpa using hi)]
        simp

/-- Witness for C9: a negative label makes the entropy call fail, and
`bincount [0, 2]` has three slots with a zero at the absent label 1. -/
theorem labels_nonneg_histogram_shape_witness :
    entropyZ? [0, -1] = none ∧
    (bincount [0, 2]).length = 3 ∧ (bincount [0, 2]).getD 1 0 = 0 := by
  refine ⟨labels_nonneg_histogram_shape.1 [0, -1] ⟨-1, by simp, by norm_num⟩, ?_, ?_⟩
  · exact (labels_nonneg_histogram_shape.2 [0, 2] (by decide)).1.trans (by decide)
  · exact ((labels_nonneg_histogram_shape.2 [0, 2] (by decide)).2 1 (by decide)).trans
      (by decide)

/-- C10: the root is not exempt from collapse: on the built tree of `D0`,
`prune` clears the root's own children mapping, leaving a single-leaf tree
(only `_remove_node`, which `prune` never calls, special-cases the root). -/
theorem prune_can_collapse_root_to_single_leaf :
    ∃ (d : Dataset) (t : DNode), buildTree d = some t ∧ t.children ≠ [] ∧
      (pruneNode t).children = [] ∧ nodeCountN (pruneNode t) = 1 := by
  refine ⟨D0, T0, buildTree_D0, by simp [T0, DNode.children], ?_, ?_⟩
  · rw [pruneNode_T0]
    rfl
  · rw [pruneNode_T0]
    rfl

end DecTree
